import Mathlib

/-!
# DOI publication workflow of the FOXDEN frontend

A shallow embedding of `src/publish.go` (`getMetaData`, `publishDataset`,
`updateMetaDataDOI`) and of `src/utils.go` (`newToken`, `numberOfRecords`).

Conventions of the embedding.

* A Go `string` is a list of characters.  Every pattern the code searches for
  (`/`, `beamline=`, `,`) is ASCII, so on well-formed UTF-8 the byte view and
  the character view of these searches agree.
* A Go `error` is represented by its message; `nil` is `none`.
* The outside world (token signing, HTTP transport, the DOI providers) is a
  deterministic function of the history of calls made so far.  Every function
  takes the history at entry and returns the list of events it emitted.
* `json.Marshal` cannot fail on the values the code passes to it (structs of
  strings and integers, and maps decoded from JSON), so a request body is
  represented by the structured value it encodes.
* A Go map is an association list read through `mapGet`; a nil map, which a
  JSON `null` decodes to, is the `none` of an `Option`.
* A run either returns or panics (dereference of a nil response, assignment
  into a nil map).
-/

namespace Frontend

/-- A Go string. -/
abbrev Str := List Char

/-- A Go error, represented by its message. -/
abbrev GoError := Str

/-! ## The functions of package `strings` that the code calls -/

/-- Go `strings.HasPrefix`. -/
def HasPrefix (s pre : Str) : Bool := pre.isPrefixOf s

/-- Go `strings.Contains`: `substr` occurs somewhere in `s`. -/
def Contains : Str → Str → Bool
  | [], substr => substr.isEmpty
  | c :: cs, substr => substr.isPrefixOf (c :: cs) || Contains cs substr

/-- Go `strings.Split(s, sep)` for a one-character separator. -/
def Split (sep : Char) : Str → List Str
  | [] => [[]]
  | c :: cs =>
    if c = sep then [] :: Split sep cs
    else
      match Split sep cs with
      | [] => [[c]]
      | seg :: segs => (c :: seg) :: segs

/-- The scan of Go `strings.Replace(s, old, new, -1)` for a non-empty `old`:
`skip` counts the characters of a matched occurrence still to be dropped. -/
def replaceScan (old new : Str) : Nat → Str → Str
  | _, [] => []
  | skip + 1, _ :: cs => replaceScan old new skip cs
  | 0, c :: cs =>
    if old.isPrefixOf (c :: cs) then new ++ replaceScan old new (old.length - 1) cs
    else c :: replaceScan old new 0 cs

/-- Go `strings.Replace(s, old, new, -1)` for a non-empty `old`: every
non-overlapping occurrence of `old`, taken from the left, becomes `new`. -/
def ReplaceAll (s old new : Str) : Str := replaceScan old new 0 s

/-! ## Values and maps -/

/-- A Go value of type `any` as produced by decoding JSON.  Numbers are never
inspected by the code and are carried as their literal text. -/
inductive Any where
  | null
  | bool (b : Bool)
  | number (literal : Str)
  | string (s : Str)
  | array (items : List Any)
  | object (fields : List (Str × Any))

/-- A non-nil Go `map[string]any`, as an association list.  A nil map is the
`none` of `Option MapStringAny`. -/
abbrev MapStringAny := List (Str × Any)

/-- Go `m[key]` with the comma-ok form: the value stored under `key`. -/
def mapGet (m : MapStringAny) (key : Str) : Option Any :=
  match m with
  | [] => none
  | (k, v) :: rest => if k = key then some v else mapGet rest key

/-- Go `delete(m, key)`. -/
def mapDelete (m : MapStringAny) (key : Str) : MapStringAny :=
  m.filter (fun kv => decide (kv.1 ≠ key))

/-- Go `m[key] = v`. -/
def mapSet (m : MapStringAny) (key : Str) (v : Any) : MapStringAny :=
  (key, v) :: mapDelete m key

/-! ## The wire types of `golib/services` that the code reads and builds -/

/-- Modelled from the spec: `services.ServiceQuery`, the query payload plus
pagination (index, limit). -/
structure ServiceQuery where
  Query : Str
  Idx : Int
  Limit : Int

/-- Modelled from the spec: `services.ServiceRequest`, the envelope sent to
search-style services. -/
structure ServiceRequest where
  Client : Str
  ServiceQuery : ServiceQuery

/-- Modelled from the spec: `services.MetaRecord`, the update envelope
`(schema, record)`. -/
structure MetaRecord where
  Schema : Str
  Record : MapStringAny

/-- Modelled from the spec: the `results` part of `services.ServiceResponse`
read by the code. -/
structure ServiceResults where
  NRecords : Int

/-- Modelled from the spec: `services.ServiceResponse`, carrying a service
status code and an HTTP status code. -/
structure ServiceResponse where
  SrvCode : Int
  HttpCode : Int
  Error : Str
  Results : ServiceResults

/-- Modelled from the spec: `authz.CustomClaims`, the claim set of a token. -/
structure CustomClaims where
  User : Str
  Scope : Str
  Kind : Str
  Application : Str

/-- Go `http.StatusOK`. -/
def StatusOK : Int := 200

/-! ## Transport -/

/-- A non-nil `*http.Response`, as far as the code uses it: the result of
`io.ReadAll(resp.Body)`. -/
structure Response where
  body : Except GoError Str

/-- The Go pair `(*http.Response, error)` returned by a request; either
component may be nil. -/
structure HttpResult where
  resp : Option Response
  err : Option GoError

/-- The three DOI providers of `golib/doi`. -/
inductive Provider where
  | Zenodo
  | MC
  | Datacite
  deriving DecidableEq

/-- A call to the outside world, with what it answered. -/
inductive Event where
  | JWTAccessToken (clientID : Str) (duration : Int) (claims : CustomClaims)
  | readGetToken
  | writeGetToken
  | Post (rurl : Str) (body : ServiceRequest) (result : HttpResult)
  | Get (rurl : Str) (result : HttpResult)
  | Put (rurl : Str) (body : MetaRecord) (result : HttpResult)
  | Init (p : Provider)
  | Publish (p : Provider) (did description : Str) (record : Option MapStringAny)

/-- The configuration and the outside world.  Every answer may depend on the
history of the calls made before it. -/
structure Env where
  /-- The configured `srvConfig.Config.Authz.TokenExpires`. -/
  TokenExpires : Int
  /-- The configured `srvConfig.Config.Authz.ClientID`. -/
  ClientID : Str
  /-- The configured `srvConfig.Config.Services.MetaDataURL`. -/
  MetaDataURL : Str
  /-- The configured `srvConfig.Config.Services.DiscoveryURL`. -/
  DiscoveryURL : Str
  /-- The signing call `authz.JWTAccessToken`. -/
  JWTAccessToken : List Event → Str → Int → CustomClaims → Except GoError Str
  /-- The request `_httpReadRequest.Post`. -/
  Post : List Event → Str → ServiceRequest → HttpResult
  /-- The request `_httpReadRequest.Get`. -/
  Get : List Event → Str → HttpResult
  /-- The request `_httpWriteRequest.Put`. -/
  Put : List Event → Str → MetaRecord → HttpResult
  /-- Go `json.Unmarshal` into `[]map[string]any`; a JSON `null` element
  decodes to a nil map. -/
  unmarshalRecords : Str → Except GoError (List (Option MapStringAny))
  /-- Go `json.Unmarshal` into `services.ServiceResponse`. -/
  unmarshalServiceResponse : Str → Except GoError ServiceResponse
  /-- The rendering `services.ServiceResponse.String`. -/
  responseString : ServiceResponse → Str
  /-- Go `strings.ToLower`. -/
  ToLower : Str → Str
  /-- The call `Publish` of a provider: `(doi, doiLink, err)`. -/
  Publish : List Event → Provider → Str → Str → Option MapStringAny →
    Str × Str × Option GoError

/-- How a call ends. -/
inductive Outcome (α : Type) where
  | returned (a : α)
  | panicked

/-- A run of a function: how it ended and the events it emitted, in order. -/
structure Run (α : Type) where
  outcome : Outcome α
  trace : List Event

/-! ## `src/utils.go` -/

/-- The token lifetime `newToken` asks for. -/
def tokenDuration (env : Env) : Int :=
  if env.TokenExpires = 0 then 7200 else env.TokenExpires

/-- The claim set `newToken` builds. -/
def tokenClaims (user scope : Str) : CustomClaims :=
  { User := user, Scope := scope, Kind := "client_credentials".toList,
    Application := "FOXDEN".toList }

/-- Go `newToken(user, scope)`. -/
def newToken (env : Env) (h : List Event) (user scope : Str) :
    Run (Except GoError Str) :=
  { outcome := .returned
      (env.JWTAccessToken h env.ClientID (tokenDuration env) (tokenClaims user scope)),
    trace := [Event.JWTAccessToken env.ClientID (tokenDuration env) (tokenClaims user scope)] }

/-- The URL `numberOfRecords` posts to. -/
def nrecordsURL (env : Env) : Str := env.DiscoveryURL ++ "/nrecords".toList

/-- Go `numberOfRecords(rec)`: the Go pair `(int, error)`. -/
def numberOfRecords (env : Env) (h : List Event) (rec : ServiceRequest) :
    Run (Int × Option GoError) :=
  let total : Int := 0
  let h1 := h ++ [Event.readGetToken]
  let r := env.Post h1 (nrecordsURL env) rec
  let tr := [Event.readGetToken, Event.Post (nrecordsURL env) rec r]
  match r.err with
  | some e => { outcome := .returned (total, some e), trace := tr }
  | none =>
    match r.resp with
    | none => { outcome := .panicked, trace := tr }
    | some resp =>
      match resp.body with
      | .error e => { outcome := .returned (total, some e), trace := tr }
      | .ok data =>
        match env.unmarshalServiceResponse data with
        | .error e => { outcome := .returned (total, some e), trace := tr }
        | .ok response =>
          if response.HttpCode ≠ StatusOK then
            -- `return 0, err` with `err` the nil error of the decoding above
            { outcome := .returned (0, none), trace := tr }
          else
            { outcome := .returned (response.Results.NRecords, none), trace := tr }

/-! ## `src/publish.go` -/

/-- The URL `getMetaData` posts to. -/
def searchURL (env : Env) : Str := env.MetaDataURL ++ "/search".toList

/-- The request `getMetaData` builds for a did. -/
def searchRequest (did : Str) : ServiceRequest :=
  { Client := "foxden-doi".toList,
    ServiceQuery :=
      { Query := "\x7b\"did\": \"".toList ++ did ++ "\"\x7d".toList, Idx := 0, Limit := -1 } }

/-- Go `getMetaData(user, did)`: the Go pair `(map[string]any, error)`; a nil map
is `none`. -/
def getMetaData (env : Env) (h : List Event) (user did : Str) :
    Run (Option MapStringAny × Option GoError) :=
  let t := newToken env h user "read".toList
  match t.outcome with
  | .panicked => { outcome := .panicked, trace := t.trace }
  | .returned (.error e) => { outcome := .returned (none, some e), trace := t.trace }
  | .returned (.ok _) =>
    let r := env.Post (h ++ t.trace) (searchURL env) (searchRequest did)
    let tr := t.trace ++ [Event.Post (searchURL env) (searchRequest did) r]
    match r.err with
    | some e => { outcome := .returned (none, some e), trace := tr }
    | none =>
      match r.resp with
      | none => { outcome := .panicked, trace := tr }
      | some resp =>
        match resp.body with
        | .error e => { outcome := .returned (none, some e), trace := tr }
        | .ok data =>
          match env.unmarshalRecords data with
          | .error e => { outcome := .returned (none, some e), trace := tr }
          | .ok records =>
            if records.length ≠ 1 then
              { outcome := .returned (none, some "wrong number of records".toList),
                trace := tr }
            else
              { outcome := .returned (records.headD none, none), trace := tr }

/-- The message of `publishDataset` for a provider it does not know. -/
def unsupportedMsg (provider : Str) : Str :=
  "Provider \x27".toList ++ provider ++ "\x27 is not supported".toList

/-- One provider branch of `publishDataset`: `Init`, then `Publish`. -/
def publishWith (env : Env) (h : List Event) (p : Provider) (did description : Str)
    (record : Option MapStringAny) : Run (Str × Str × Option GoError) :=
  { outcome := .returned (env.Publish (h ++ [Event.Init p]) p did description record),
    trace := [Event.Init p, Event.Publish p did description record] }

/-- Go `publishDataset(user, provider, did, description)`: the Go triple
`(doi, doiLink, err)`. -/
def publishDataset (env : Env) (h : List Event) (user provider did description : Str) :
    Run (Str × Str × Option GoError) :=
  let m := getMetaData env h user did
  match m.outcome with
  | .panicked => { outcome := .panicked, trace := m.trace }
  | .returned (_, some e) => { outcome := .returned ([], [], some e), trace := m.trace }
  | .returned (record, none) =>
    let p := env.ToLower provider
    if p = "zenodo".toList then
      let r := publishWith env (h ++ m.trace) Provider.Zenodo did description record
      { outcome := r.outcome, trace := m.trace ++ r.trace }
    else if p = "materialcommons".toList then
      let r := publishWith env (h ++ m.trace) Provider.MC did description record
      { outcome := r.outcome, trace := m.trace ++ r.trace }
    else if p = "datacite".toList then
      let r := publishWith env (h ++ m.trace) Provider.Datacite did description record
      { outcome := r.outcome, trace := m.trace ++ r.trace }
    else
      { outcome := .returned ([], [], some (unsupportedMsg provider)), trace := m.trace }

/-- The loop of `updateMetaDataDOI` that extracts the schema: the first part
with the prefix `beamline=` decides, and the schema stays empty without one. -/
def schemaLoop : List Str → Str
  | [] => []
  | part :: parts =>
    if HasPrefix part "beamline=".toList then ReplaceAll part "beamline=".toList []
    else schemaLoop parts

/-- The schema `updateMetaDataDOI` extracts from a did. -/
def extractSchema (did : Str) : Str := schemaLoop (Split '/' did)

/-- The message of `updateMetaDataDOI` for a schema with a comma. -/
def multipleSchemasMsg (did schema : Str) : Str :=
  "unsupported did=".toList ++ did ++ " with multiple schemas ".toList ++ schema ++
    " for MetaData update".toList

/-- The URL `updateMetaDataDOI` fetches the candidate records from. -/
def recordURL (env : Env) (did : Str) : Str :=
  env.MetaDataURL ++ "/record?did=".toList ++ did

/-- The body of the loop of `updateMetaDataDOI` up to the envelope: drop
`_id`, set `doi` and `doi_url`, wrap with the schema. -/
def patchRecord (schema doi doiLink : Str) (rec : MapStringAny) : MetaRecord :=
  let rec1 := mapDelete rec "_id".toList
  let rec2 := mapSet rec1 "doi".toList (Any.string doi)
  let rec3 := mapSet rec2 "doi_url".toList (Any.string doiLink)
  { Schema := schema, Record := rec3 }

/-- The loop of `updateMetaDataDOI` over the candidate records.  On a nil map
`delete` does nothing and the assignment of `doi` panics, before any write. -/
def updateLoop (env : Env) (schema doi doiLink : Str) :
    List Event → List (Option MapStringAny) → Run (Option GoError)
  | _, [] => { outcome := .returned none, trace := [] }
  | _, none :: _ => { outcome := .panicked, trace := [] }  -- `rec["doi"] = doi` on a nil map
  | h, some rec :: rest =>
    let mrec := patchRecord schema doi doiLink rec
    let r := env.Put (h ++ [Event.writeGetToken]) env.MetaDataURL mrec
    let tr := [Event.writeGetToken, Event.Put env.MetaDataURL mrec r]
    match r.resp with
    | none => { outcome := .panicked, trace := tr }  -- `defer resp.Body.Close()` on a nil `resp`
    | some resp =>
      match r.err with
      | some e => { outcome := .returned (some e), trace := tr }
      | none =>
        match resp.body with
        | .error e => { outcome := .returned (some e), trace := tr }
        | .ok data =>
          match env.unmarshalServiceResponse data with
          | .error e => { outcome := .returned (some e), trace := tr }
          | .ok sresp =>
            if sresp.SrvCode ≠ 0 ∨ sresp.HttpCode ≠ StatusOK then
              { outcome := .returned (some (env.responseString sresp)), trace := tr }
            else
              let next := updateLoop env schema doi doiLink (h ++ tr) rest
              { outcome := next.outcome, trace := tr ++ next.trace }

/-- Go `updateMetaDataDOI(did, doi, doiLink)`: the returned `error`. -/
def updateMetaDataDOI (env : Env) (h : List Event) (did doi doiLink : Str) :
    Run (Option GoError) :=
  let schema := extractSchema did
  if Contains schema ",".toList then
    { outcome := .returned (some (multipleSchemasMsg did schema)), trace := [] }
  else
    let r := env.Get (h ++ [Event.readGetToken]) (recordURL env did)
    let tr := [Event.readGetToken, Event.Get (recordURL env did) r]
    match r.resp with
    | none => { outcome := .panicked, trace := tr }  -- `defer resp.Body.Close()` on a nil `resp`
    | some resp =>
      match r.err with
      | some e => { outcome := .returned (some e), trace := tr }
      | none =>
        match resp.body with
        | .error e => { outcome := .returned (some e), trace := tr }
        | .ok data =>
          match env.unmarshalRecords data with
          | .error e => { outcome := .returned (some e), trace := tr }
          | .ok records =>
            let loop := updateLoop env schema doi doiLink (h ++ tr) records
            { outcome := loop.outcome, trace := tr ++ loop.trace }

/-! ## Observations on traces -/

/-- The writes of a trace: the envelope of every `Put`, with its answer. -/
def writes : List Event → List (MetaRecord × HttpResult)
  | [] => []
  | Event.Put _ body result :: rest => (body, result) :: writes rest
  | _ :: rest => writes rest

/-- The provider calls (`Init` or `Publish`) of a trace. -/
def providerCalls : List Event → List Event
  | [] => []
  | Event.Init p :: rest => Event.Init p :: providerCalls rest
  | Event.Publish p did description record :: rest =>
    Event.Publish p did description record :: providerCalls rest
  | _ :: rest => providerCalls rest

/-- What the code decodes from the answer to a write, when the transport, the
reading of the body and the decoding all succeed. -/
def decodedWrite (env : Env) (r : HttpResult) : Option ServiceResponse :=
  match r.resp, r.err with
  | some resp, none =>
    match resp.body with
    | .ok data =>
      match env.unmarshalServiceResponse data with
      | .ok sresp => some sresp
      | .error _ => none
    | .error _ => none
  | _, _ => none

/-- The codes of a decoded write response pass the per-record outcome check. -/
def codesOK (sresp : ServiceResponse) : Prop := sresp.SrvCode = 0 ∧ sresp.HttpCode = 200

/-- The per-record outcome check of `updateMetaDataDOI` on the answer to a
write: it was received, read, decoded, and its codes pass. -/
def writeSucceeded (env : Env) (r : HttpResult) : Prop :=
  ∃ sresp, decodedWrite env r = some sresp ∧ codesOK sresp

/-- The answer to the write of one candidate record, issued at history `h`. -/
def putResult (env : Env) (schema doi doiLink : Str) (h : List Event) (rec : MapStringAny) :
    HttpResult :=
  env.Put (h ++ [Event.writeGetToken]) env.MetaDataURL (patchRecord schema doi doiLink rec)

/-- The events one round of the loop of `updateMetaDataDOI` emits. -/
def putTrace (env : Env) (schema doi doiLink : Str) (h : List Event) (rec : MapStringAny) :
    List Event :=
  [Event.writeGetToken,
   Event.Put env.MetaDataURL (patchRecord schema doi doiLink rec)
     (putResult env schema doi doiLink h rec)]

/-- The answer to the fetch of the candidate records of `updateMetaDataDOI`. -/
def fetchResult (env : Env) (h : List Event) (did : Str) : HttpResult :=
  env.Get (h ++ [Event.readGetToken]) (recordURL env did)

/-- The events the fetch of the candidate records emits. -/
def fetchTrace (env : Env) (h : List Event) (did : Str) : List Event :=
  [Event.readGetToken, Event.Get (recordURL env did) (fetchResult env h did)]

/-- A run of `publishDataset` that took the branch of provider `p`: after the
events of `getMetaData` it called `Init` and then `Publish` of `p` with the
did, the description and the fetched record, and returned what `Publish` gave. -/
def publishedWith (env : Env) (h : List Event) (user did description : Str)
    (record : Option MapStringAny) (p : Provider) (run : Run (Str × Str × Option GoError)) :
    Prop :=
  run.trace = (getMetaData env h user did).trace ++
      [Event.Init p, Event.Publish p did description record] ∧
    run.outcome = .returned
      (env.Publish (h ++ (getMetaData env h user did).trace ++ [Event.Init p]) p did
        description record)

/-- A run of `publishDataset` that took the unsupported branch for the name
`provider`: nothing beyond the events of `getMetaData`, and the error quoting
the name. -/
def rejectedProvider (env : Env) (h : List Event) (user did provider : Str)
    (run : Run (Str × Str × Option GoError)) : Prop :=
  run.trace = (getMetaData env h user did).trace ∧
    run.outcome = .returned ([], [], some (unsupportedMsg provider))

/-! ## Sample worlds -/

/-- ASCII lower-casing, the behaviour of `strings.ToLower` on ASCII names. -/
def asciiLower (s : Str) : Str := s.map Char.toLower

/-- A transport answer whose body is `data`. -/
def answer (data : Str) : HttpResult := { resp := some { body := .ok data }, err := none }

/-- A transport failure: no response and an error. -/
def refused : HttpResult := { resp := none, err := some "connection refused".toList }

/-- The catalog record of the scenario of the spec. -/
def sampleRecord : MapStringAny :=
  [("_id".toList, Any.string "x".toList), ("did".toList, Any.string "d".toList),
   ("sample".toList, Any.string "Fe2O3".toList)]

/-- A service response reporting success. -/
def okResponse : ServiceResponse :=
  { SrvCode := 0, HttpCode := 200, Error := [], Results := { NRecords := 7 } }

/-- A service response reporting a server failure. -/
def failedResponse : ServiceResponse :=
  { SrvCode := 0, HttpCode := 500, Error := "internal error".toList,
    Results := { NRecords := 7 } }

/-- A world in which tokens, reads and decoding succeed: the catalog holds
`records`, every write is answered by `put`, and every service response decodes
to `sresp`. -/
def sampleEnv (records : List (Option MapStringAny)) (put : HttpResult)
    (sresp : ServiceResponse) : Env :=
  { TokenExpires := 0, ClientID := "id".toList, MetaDataURL := "http://meta".toList,
    DiscoveryURL := "http://disc".toList,
    JWTAccessToken := fun _ _ _ _ => .ok "tok".toList,
    Post := fun _ _ _ => answer [],
    Get := fun _ _ => answer [],
    Put := fun _ _ _ => put,
    unmarshalRecords := fun _ => .ok records,
    unmarshalServiceResponse := fun _ => .ok sresp,
    responseString := fun r => r.Error,
    ToLower := asciiLower,
    Publish := fun _ _ _ _ _ =>
      ("10.5072/abc123".toList, "https://zenodo.org/record/abc123".toList, none) }

/-! ## Lemmas on strings -/

theorem Contains_singleton (c : Char) (s : Str) : Contains s [c] = true ↔ c ∈ s := by
  induction s with
  | nil => simp [Contains]
  | cons x xs ih =>
    simp only [Contains, Bool.or_eq_true, ih, List.mem_cons]
    constructor
    · rintro (h | h)
      · left
        have := List.isPrefixOf_iff_prefix.mp h
        obtain ⟨t, ht⟩ := this
        simp at ht
        exact ht.1
      · exact Or.inr h
    · rintro (h | h)
      · left
        subst h
        simp [List.isPrefixOf]
      · exact Or.inr h

theorem Contains_self_append (p b : Str) : Contains (p ++ b) p = true := by
  cases hp : p ++ b with
  | nil =>
    have : p = [] := by
      cases p with
      | nil => rfl
      | cons x xs => simp at hp
    simp [Contains, this]
  | cons x xs =>
    simp only [Contains, Bool.or_eq_true]
    left
    rw [← hp]
    exact List.isPrefixOf_iff_prefix.mpr (List.prefix_append p b)

theorem Contains_append_left (a s p : Str) (h : Contains s p = true) :
    Contains (a ++ s) p = true := by
  induction a with
  | nil => simpa using h
  | cons x xs ih =>
    simp only [List.cons_append, Contains, Bool.or_eq_true]
    exact Or.inr ih

theorem Contains_middle (a p b : Str) : Contains (a ++ p ++ b) p = true := by
  rw [List.append_assoc]
  exact Contains_append_left a (p ++ b) p (Contains_self_append p b)

theorem replaceScan_skip (old new : Str) (a t : Str) :
    replaceScan old new a.length (a ++ t) = replaceScan old new 0 t := by
  induction a with
  | nil => simp
  | cons x xs ih => simpa [replaceScan] using ih

theorem replaceScan_absent (old : Str) (t : Str) (h : Contains t old = false) :
    replaceScan old [] 0 t = t := by
  induction t with
  | nil => simp [replaceScan]
  | cons c cs ih =>
    simp only [Contains, Bool.or_eq_false_iff] at h
    simp [replaceScan, h.1, ih h.2]

theorem ReplaceAll_drop_old (old t : Str) (hne : old ≠ []) :
    ReplaceAll (old ++ t) old [] = replaceScan old [] 0 t := by
  cases old with
  | nil => exact absurd rfl hne
  | cons o os =>
    have hp : (o :: os).isPrefixOf (o :: (os ++ t)) = true :=
      List.isPrefixOf_iff_prefix.mpr (by simp)
    show replaceScan (o :: os) [] 0 (o :: (os ++ t)) = replaceScan (o :: os) [] 0 t
    rw [replaceScan, if_pos hp]
    simpa using replaceScan_skip (o :: os) [] os t

theorem mem_replaceScan (old : Str) (c : Char) (hc : c ∉ old) (hne : old ≠ []) :
    ∀ (s : Str) (k : Nat), c ∈ replaceScan old [] k s ↔ c ∈ s.drop k := by
  intro s
  induction s with
  | nil => intro k; simp [replaceScan]
  | cons x xs ih =>
    intro k
    cases k with
    | succ k => simp [replaceScan, ih k]
    | zero =>
      simp only [replaceScan, List.drop_zero]
      split
      · rename_i hp
        obtain ⟨t, ht⟩ := List.isPrefixOf_iff_prefix.mp hp
        cases old with
        | nil => exact absurd rfl hne
        | cons o os =>
          simp only [List.cons_append, List.cons.injEq] at ht
          obtain ⟨hox, hxs⟩ := ht
          subst hox
          have ho : c ≠ o := fun h => hc (by simp [h])
          have hos : c ∉ os := fun h => hc (by simp [h])
          subst hxs
          simp only [List.nil_append, List.length_cons, Nat.add_sub_cancel, ih os.length,
            List.mem_cons, List.drop_left, List.mem_append]
          simp [ho, hos]
      · simp [ih 0]

theorem mem_ReplaceAll (old : Str) (c : Char) (hc : c ∉ old) (hne : old ≠ []) (s : Str) :
    c ∈ ReplaceAll s old [] ↔ c ∈ s := by
  simpa [ReplaceAll] using mem_replaceScan old c hc hne s 0

/-! ## Lemmas on maps -/

theorem mapDelete_cons (kv : Str × Any) (rest : MapStringAny) (k : Str) :
    mapDelete (kv :: rest) k = if kv.1 = k then mapDelete rest k else kv :: mapDelete rest k := by
  by_cases h : kv.1 = k <;> simp [mapDelete, List.filter_cons, h]

theorem mapGet_mapDelete_self (m : MapStringAny) (k : Str) : mapGet (mapDelete m k) k = none := by
  induction m with
  | nil => rfl
  | cons kv rest ih =>
    rw [mapDelete_cons]
    by_cases h : kv.1 = k
    · rw [if_pos h]; exact ih
    · rw [if_neg h]
      obtain ⟨k1, v1⟩ := kv
      simp only [mapGet]
      rw [if_neg h]; exact ih

theorem mapGet_mapDelete_other (m : MapStringAny) (k key : Str) (hk : key ≠ k) :
    mapGet (mapDelete m k) key = mapGet m key := by
  induction m with
  | nil => rfl
  | cons kv rest ih =>
    rw [mapDelete_cons]
    obtain ⟨k1, v1⟩ := kv
    by_cases h : k1 = k
    · rw [if_pos h]
      have h2 : ¬ k1 = key := fun h2 => hk (h2 ▸ h)
      simp only [mapGet]
      rw [if_neg h2]; exact ih
    · rw [if_neg h]
      simp only [mapGet]
      by_cases h2 : k1 = key
      · rw [if_pos h2, if_pos h2]
      · rw [if_neg h2, if_neg h2]; exact ih

theorem mapGet_mapSet_self (m : MapStringAny) (k : Str) (v : Any) :
    mapGet (mapSet m k v) k = some v := by
  simp [mapSet, mapGet]

theorem mapGet_mapSet_other (m : MapStringAny) (k key : Str) (v : Any) (hk : key ≠ k) :
    mapGet (mapSet m k v) key = mapGet m key := by
  have : k ≠ key := fun h => hk h.symm
  simp [mapSet, mapGet, this, mapGet_mapDelete_other m k key hk]


/-! ## Lemmas on traces -/

theorem writes_append (a b : List Event) : writes (a ++ b) = writes a ++ writes b := by
  induction a with
  | nil => rfl
  | cons e rest ih => cases e <;> simp [writes, ih]

theorem providerCalls_append (a b : List Event) :
    providerCalls (a ++ b) = providerCalls a ++ providerCalls b := by
  induction a with
  | nil => rfl
  | cons e rest ih => cases e <;> simp [providerCalls, ih]

/-- The trace of `getMetaData` holds no provider call. -/
theorem getMetaData_no_provider (env : Env) (h : List Event) (user did : Str) :
    providerCalls (getMetaData env h user did).trace = [] := by
  unfold getMetaData
  simp only [newToken]
  split
  · rfl
  · rfl
  · split
    · rfl
    · split
      · rfl
      · split
        · rfl
        · split
          · rfl
          · split <;> rfl

/-! ## getMetaData -/

/-- With token issuance, transport and decoding succeeding, the outcome of
`getMetaData` is decided by the number of records alone. -/
theorem getMetaData_outcome (env : Env) (h : List Event) (user did token : Str)
    (resp : Response) (data : Str) (records : List (Option MapStringAny))
    (htoken : (newToken env h user "read".toList).outcome = .returned (.ok token))
    (hpost : env.Post (h ++ (newToken env h user "read".toList).trace) (searchURL env)
      (searchRequest did) = { resp := some resp, err := none })
    (hbody : resp.body = .ok data)
    (hdecode : env.unmarshalRecords data = .ok records) :
    (getMetaData env h user did).outcome =
      if records.length ≠ 1 then .returned (none, some "wrong number of records".toList)
      else .returned (records.headD none, none) := by
  unfold getMetaData
  simp only [htoken, hpost, hbody, hdecode]
  split <;> rfl

/-- A transport error of the search makes `getMetaData` return an error. -/
theorem getMetaData_error_of_transport (env : Env) (h : List Event) (user did : Str)
    (e : GoError)
    (hpost : (env.Post (h ++ (newToken env h user "read".toList).trace) (searchURL env)
      (searchRequest did)).err = some e) :
    ∃ e2, (getMetaData env h user did).outcome = .returned (none, some e2) := by
  cases ht : (newToken env h user "read".toList).outcome with
  | panicked => simp [newToken] at ht
  | returned t =>
    cases t with
    | error e1 =>
      refine ⟨e1, ?_⟩
      unfold getMetaData
      simp only [ht]
    | ok token =>
      refine ⟨e, ?_⟩
      unfold getMetaData
      simp only [ht, hpost]

/-- C1: with token issuance, transport and JSON decoding succeeding,
`getMetaData` returns a nil error if and only if the search response holds
exactly one record, and then it returns that record; for any other number of
records it returns the error "wrong number of records" together with a nil
map, hence none of the records. -/
theorem getMetaData_exactly_one (env : Env) (h : List Event) (user did token : Str)
    (resp : Response) (data : Str) (records : List (Option MapStringAny))
    (htoken : (newToken env h user "read".toList).outcome = .returned (.ok token))
    (hpost : env.Post (h ++ (newToken env h user "read".toList).trace) (searchURL env)
      (searchRequest did) = { resp := some resp, err := none })
    (hbody : resp.body = .ok data)
    (hdecode : env.unmarshalRecords data = .ok records) :
    ((∃ rec, (getMetaData env h user did).outcome = .returned (rec, none)) ↔
        records.length = 1) ∧
      (∀ rec, records = [rec] →
        (getMetaData env h user did).outcome = .returned (rec, none)) ∧
      (records.length ≠ 1 →
        (getMetaData env h user did).outcome =
          .returned (none, some "wrong number of records".toList)) := by
  have key := getMetaData_outcome env h user did token resp data records htoken hpost hbody
    hdecode
  refine ⟨?_, ?_, ?_⟩
  · constructor
    · rintro ⟨rec, hrec⟩
      by_contra hne
      rw [key, if_pos hne] at hrec
      cases hrec
    · intro hlen
      refine ⟨records.headD none, ?_⟩
      rw [key, if_neg (by simpa using hlen)]
  · intro rec hrec
    subst hrec
    rw [key]
    simp
  · intro hne
    rw [key, if_pos hne]

/-- Witness: a search answered with the single sample record returns that
record. -/
theorem getMetaData_exactly_one_witness :
    (getMetaData (sampleEnv [some sampleRecord] (answer []) okResponse) [] "u".toList
      "d".toList).outcome = .returned (some sampleRecord, none) :=
  (getMetaData_exactly_one (sampleEnv [some sampleRecord] (answer []) okResponse) []
    "u".toList "d".toList "tok".toList { body := .ok [] } [] [some sampleRecord] rfl rfl rfl
    rfl).2.1 (some sampleRecord) rfl

/-! ## publishDataset -/

/-- An error of `getMetaData` is returned by `publishDataset` with empty doi
and doiLink, and nothing is emitted beyond the events of `getMetaData`. -/
theorem publishDataset_of_getMetaData_error (env : Env) (h : List Event)
    (user provider did description : Str) (rec : Option MapStringAny) (e : GoError)
    (hg : (getMetaData env h user did).outcome = .returned (rec, some e)) :
    (publishDataset env h user provider did description).outcome = .returned ([], [], some e) ∧
      (publishDataset env h user provider did description).trace =
        (getMetaData env h user did).trace := by
  unfold publishDataset
  simp only [hg, and_self]

/-- A search answered with a number of records other than one makes
`getMetaData` return an error, whatever the token issuance did. -/
theorem getMetaData_error_of_count (env : Env) (h : List Event) (user did : Str)
    (resp : Response) (data : Str) (records : List (Option MapStringAny))
    (hpost : env.Post (h ++ (newToken env h user "read".toList).trace) (searchURL env)
      (searchRequest did) = { resp := some resp, err := none })
    (hbody : resp.body = .ok data)
    (hdecode : env.unmarshalRecords data = .ok records)
    (hcount : records.length ≠ 1) :
    ∃ e, (getMetaData env h user did).outcome = .returned (none, some e) := by
  cases ht : (newToken env h user "read".toList).outcome with
  | panicked => simp [newToken] at ht
  | returned t =>
    cases t with
    | error e =>
      refine ⟨e, ?_⟩
      unfold getMetaData
      simp only [ht]
    | ok token =>
      refine ⟨"wrong number of records".toList, ?_⟩
      rw [getMetaData_outcome env h user did token resp data records ht hpost hbody hdecode,
        if_pos hcount]

/-- C8: when `getMetaData` returns an error, in particular when the transport
of the catalog search fails or the search is answered with a number of records
other than one, `publishDataset` returns an error with empty
doi and doiLink, and no provider `Init` or `Publish` is called. -/
theorem publishDataset_search_failure (env : Env) (h : List Event)
    (user provider did description : Str)
    (hsearch : (∃ rec e, (getMetaData env h user did).outcome = .returned (rec, some e)) ∨
      (∃ e, (env.Post (h ++ (newToken env h user "read".toList).trace) (searchURL env)
        (searchRequest did)).err = some e) ∨
      (∃ resp data records,
        env.Post (h ++ (newToken env h user "read".toList).trace) (searchURL env)
          (searchRequest did) = { resp := some resp, err := none } ∧
        resp.body = .ok data ∧ env.unmarshalRecords data = .ok records ∧
        records.length ≠ 1)) :
    (∃ e, (publishDataset env h user provider did description).outcome =
        .returned ([], [], some e)) ∧
      providerCalls (publishDataset env h user provider did description).trace = [] := by
  have hg : ∃ rec e, (getMetaData env h user did).outcome = .returned (rec, some e) := by
    rcases hsearch with hfail | ⟨e, htransport⟩ |
      ⟨resp, data, records, hpost, hbody, hdecode, hcount⟩
    · exact hfail
    · obtain ⟨e2, he2⟩ := getMetaData_error_of_transport env h user did e htransport
      exact ⟨none, e2, he2⟩
    · obtain ⟨e, he⟩ :=
        getMetaData_error_of_count env h user did resp data records hpost hbody hdecode hcount
      exact ⟨none, e, he⟩
  obtain ⟨rec, e, hge⟩ := hg
  obtain ⟨hout, htrace⟩ :=
    publishDataset_of_getMetaData_error env h user provider did description rec e hge
  refine ⟨⟨e, hout⟩, ?_⟩
  rw [htrace]
  exact getMetaData_no_provider env h user did

/-- Witness: a search answered with two records. -/
theorem publishDataset_search_failure_witness :
    (∃ e, (publishDataset (sampleEnv [some sampleRecord, some sampleRecord] (answer [])
        okResponse) [] "u".toList "zenodo".toList "d".toList "text".toList).outcome =
        .returned ([], [], some e)) ∧
      providerCalls (publishDataset (sampleEnv [some sampleRecord, some sampleRecord]
        (answer []) okResponse) [] "u".toList "zenodo".toList "d".toList
        "text".toList).trace = [] :=
  publishDataset_search_failure
    (sampleEnv [some sampleRecord, some sampleRecord] (answer []) okResponse)
    [] "u".toList "zenodo".toList "d".toList "text".toList
    (Or.inr (Or.inr
      ⟨{ body := .ok [] }, [], [some sampleRecord, some sampleRecord], rfl, rfl, rfl,
        by decide⟩))

/-- C5, as amended: for a provider name whose lower-cased form is none of
"zenodo", "materialcommons", "datacite", `publishDataset` attempts no provider
call, and when `getMetaData` has succeeded it returns the error
"Provider '<name>' is not supported", which contains the name as supplied. -/
theorem publishDataset_unsupported (env : Env) (h : List Event)
    (user provider did description : Str)
    (hz : env.ToLower provider ≠ "zenodo".toList)
    (hm : env.ToLower provider ≠ "materialcommons".toList)
    (hd : env.ToLower provider ≠ "datacite".toList) :
    providerCalls (publishDataset env h user provider did description).trace = [] ∧
      Contains (unsupportedMsg provider) provider = true ∧
      (∀ record, (getMetaData env h user did).outcome = .returned (record, none) →
        (publishDataset env h user provider did description).outcome =
          .returned ([], [], some (unsupportedMsg provider))) := by
  have htrace : (publishDataset env h user provider did description).trace =
      (getMetaData env h user did).trace := by
    unfold publishDataset
    simp only [if_neg hz, if_neg hm, if_neg hd]
    split <;> rfl
  refine ⟨?_, ?_, ?_⟩
  · rw [htrace]
    exact getMetaData_no_provider env h user did
  · exact Contains_middle _ provider _
  · intro record hg
    unfold publishDataset
    simp only [hg, if_neg hz, if_neg hm, if_neg hd]

/-- Witness: the provider "globus" with one catalog record. -/
theorem publishDataset_unsupported_witness :
    (publishDataset (sampleEnv [some sampleRecord] (answer []) okResponse) [] "u".toList
      "globus".toList "d".toList "text".toList).outcome =
      .returned ([], [], some "Provider \x27globus\x27 is not supported".toList) :=
  (publishDataset_unsupported (sampleEnv [some sampleRecord] (answer []) okResponse) []
    "u".toList "globus".toList "d".toList "text".toList (by decide) (by decide)
    (by decide)).2.2 (some sampleRecord) rfl

/-- C5 fails as stated: with the unsupported provider "globus" and a catalog
search answered with no record, the error `publishDataset` returns is the one
of `getMetaData`, which does not contain "globus". -/
theorem publishDataset_unsupported_counterexample :
    asciiLower "globus".toList ≠ "zenodo".toList ∧
      asciiLower "globus".toList ≠ "materialcommons".toList ∧
      asciiLower "globus".toList ≠ "datacite".toList ∧
      (publishDataset (sampleEnv [] (answer []) okResponse) [] "u".toList "globus".toList
        "d".toList "text".toList).outcome =
        .returned ([], [], some "wrong number of records".toList) ∧
      Contains "wrong number of records".toList "globus".toList = false := by
  refine ⟨by decide, by decide, by decide, rfl, by decide⟩

/-- The dispatch of `publishDataset` once `getMetaData` has returned a record:
the lower-cased name alone selects the branch, and each of the three supported
branches calls `Init` and `Publish` of its provider. -/
theorem publishDataset_dispatch (env : Env) (h : List Event)
    (user provider did description : Str) (record : Option MapStringAny)
    (hg : (getMetaData env h user did).outcome = .returned (record, none)) :
    (env.ToLower provider = "zenodo".toList →
        publishedWith env h user did description record Provider.Zenodo
          (publishDataset env h user provider did description)) ∧
      (env.ToLower provider = "materialcommons".toList →
        publishedWith env h user did description record Provider.MC
          (publishDataset env h user provider did description)) ∧
      (env.ToLower provider = "datacite".toList →
        publishedWith env h user did description record Provider.Datacite
          (publishDataset env h user provider did description)) ∧
      (env.ToLower provider ≠ "zenodo".toList →
        env.ToLower provider ≠ "materialcommons".toList →
        env.ToLower provider ≠ "datacite".toList →
        rejectedProvider env h user did provider
          (publishDataset env h user provider did description)) := by
  refine ⟨?_, ?_, ?_, ?_⟩
  · intro hp
    unfold publishDataset publishedWith
    simp only [hg, hp, if_true, publishWith, List.append_assoc, and_self]
  · intro hp
    have hz : "materialcommons".toList ≠ "zenodo".toList := by decide
    unfold publishDataset publishedWith
    simp only [hg, hp, if_neg hz, if_true, publishWith, List.append_assoc, and_self]
  · intro hp
    have hz : "datacite".toList ≠ "zenodo".toList := by decide
    have hm : "datacite".toList ≠ "materialcommons".toList := by decide
    unfold publishDataset publishedWith
    simp only [hg, hp, if_neg hz, if_neg hm, if_true, publishWith, List.append_assoc, and_self]
  · intro hz hm hd
    unfold publishDataset rejectedProvider
    simp only [hg, if_neg hz, if_neg hm, if_neg hd, and_self]

/-- C6: two provider names that are equal after lower-casing make
`publishDataset` take the same branch.  In every case both runs emit the same
events and return the same result, except that the error of the unsupported
branch quotes each name as supplied.  Once `getMetaData` has returned a record:
if the common lower-cased form is "zenodo", "materialcommons" or "datacite",
both runs call `Init` and then `Publish` of that provider (Zenodo,
MaterialCommons, DataCite) with the same did, description and record and
return what it gives; otherwise both runs call no provider and return the
"not supported" error. -/
theorem publishDataset_case_insensitive (env : Env) (h : List Event)
    (user p1 p2 did description : Str) (hlow : env.ToLower p1 = env.ToLower p2) :
    ((publishDataset env h user p1 did description).trace =
        (publishDataset env h user p2 did description).trace ∧
      ((publishDataset env h user p1 did description).outcome =
          (publishDataset env h user p2 did description).outcome ∨
        ((publishDataset env h user p1 did description).outcome =
            .returned ([], [], some (unsupportedMsg p1)) ∧
          (publishDataset env h user p2 did description).outcome =
            .returned ([], [], some (unsupportedMsg p2))))) ∧
      (∀ record, (getMetaData env h user did).outcome = .returned (record, none) →
        (env.ToLower p1 = "zenodo".toList →
          publishedWith env h user did description record Provider.Zenodo
            (publishDataset env h user p1 did description) ∧
          publishedWith env h user did description record Provider.Zenodo
            (publishDataset env h user p2 did description)) ∧
        (env.ToLower p1 = "materialcommons".toList →
          publishedWith env h user did description record Provider.MC
            (publishDataset env h user p1 did description) ∧
          publishedWith env h user did description record Provider.MC
            (publishDataset env h user p2 did description)) ∧
        (env.ToLower p1 = "datacite".toList →
          publishedWith env h user did description record Provider.Datacite
            (publishDataset env h user p1 did description) ∧
          publishedWith env h user did description record Provider.Datacite
            (publishDataset env h user p2 did description)) ∧
        (env.ToLower p1 ≠ "zenodo".toList →
          env.ToLower p1 ≠ "materialcommons".toList →
          env.ToLower p1 ≠ "datacite".toList →
          rejectedProvider env h user did p1 (publishDataset env h user p1 did description) ∧
          rejectedProvider env h user did p2
            (publishDataset env h user p2 did description))) := by
  refine ⟨?_, ?_⟩
  · cases hg : (getMetaData env h user did).outcome with
    | panicked =>
      unfold publishDataset
      simp only [hg, true_or, and_self]
    | returned a =>
      obtain ⟨record, err⟩ := a
      cases err with
      | some e =>
        unfold publishDataset
        simp only [hg, true_or, and_self]
      | none =>
        unfold publishDataset
        simp only [hg, hlow]
        split_ifs
        · exact ⟨rfl, Or.inl rfl⟩
        · exact ⟨rfl, Or.inl rfl⟩
        · exact ⟨rfl, Or.inl rfl⟩
        · exact ⟨rfl, Or.inr ⟨rfl, rfl⟩⟩
  · intro record hg
    obtain ⟨a1, b1, c1, d1⟩ := publishDataset_dispatch env h user p1 did description record hg
    obtain ⟨a2, b2, c2, d2⟩ := publishDataset_dispatch env h user p2 did description record hg
    refine ⟨fun hp => ⟨a1 hp, a2 (hlow ▸ hp)⟩, fun hp => ⟨b1 hp, b2 (hlow ▸ hp)⟩,
      fun hp => ⟨c1 hp, c2 (hlow ▸ hp)⟩,
      fun hz hm hd => ⟨d1 hz hm hd, d2 (hlow ▸ hz) (hlow ▸ hm) (hlow ▸ hd)⟩⟩

/-- Witness: "Zenodo" and "ZENODO" with one catalog record: the run for
"ZENODO" calls `Init` and `Publish` of the Zenodo provider with the fetched
record, as the run for "Zenodo" does. -/
theorem publishDataset_case_insensitive_witness :
    (publishDataset (sampleEnv [some sampleRecord] (answer []) okResponse) [] "u".toList
        "ZENODO".toList "d".toList "text".toList).trace =
      (getMetaData (sampleEnv [some sampleRecord] (answer []) okResponse) [] "u".toList
        "d".toList).trace ++
        [Event.Init Provider.Zenodo,
         Event.Publish Provider.Zenodo "d".toList "text".toList (some sampleRecord)] :=
  (((publishDataset_case_insensitive (sampleEnv [some sampleRecord] (answer []) okResponse) []
    "u".toList "Zenodo".toList "ZENODO".toList "d".toList "text".toList (by decide)).2
    (some sampleRecord) rfl).1 (by decide)).2.1

/-! ## updateMetaDataDOI: the loop -/

/-- A nil map among the candidates makes the loop panic before any write. -/
theorem updateLoop_nil_map (env : Env) (schema doi doiLink : Str) (h : List Event)
    (rest : List (Option MapStringAny)) :
    updateLoop env schema doi doiLink h (none :: rest) =
      { outcome := .panicked, trace := [] } := by
  rw [updateLoop]

/-- One round of the loop on a record: either the write did not succeed and
the loop stops there without a nil error, returning the rendering of the
response when there is one, or it succeeded and the loop goes on with the
rest. -/
theorem updateLoop_cons (env : Env) (schema doi doiLink : Str) (h : List Event)
    (rec : MapStringAny) (rest : List (Option MapStringAny)) :
    (¬ writeSucceeded env (putResult env schema doi doiLink h rec) ∧
        (updateLoop env schema doi doiLink h (some rec :: rest)).trace =
          putTrace env schema doi doiLink h rec ∧
        (updateLoop env schema doi doiLink h (some rec :: rest)).outcome ≠ .returned none ∧
        (∀ sresp, decodedWrite env (putResult env schema doi doiLink h rec) = some sresp →
          (updateLoop env schema doi doiLink h (some rec :: rest)).outcome =
            .returned (some (env.responseString sresp)))) ∨
      (writeSucceeded env (putResult env schema doi doiLink h rec) ∧
        (updateLoop env schema doi doiLink h (some rec :: rest)).trace =
          putTrace env schema doi doiLink h rec ++
            (updateLoop env schema doi doiLink
              (h ++ putTrace env schema doi doiLink h rec) rest).trace ∧
        (updateLoop env schema doi doiLink h (some rec :: rest)).outcome =
          (updateLoop env schema doi doiLink
            (h ++ putTrace env schema doi doiLink h rec) rest).outcome) := by
  rw [updateLoop]
  simp only [writeSucceeded, decodedWrite, putTrace, putResult]
  generalize env.Put (h ++ [Event.writeGetToken]) env.MetaDataURL
    (patchRecord schema doi doiLink rec) = r
  obtain ⟨resp, err⟩ := r
  cases resp with
  | none => left; simp
  | some resp =>
    cases err with
    | some e => left; simp
    | none =>
      obtain ⟨body⟩ := resp
      cases body with
      | error e => left; simp
      | ok data =>
        simp only []
        cases hd : env.unmarshalServiceResponse data with
        | error e => left; simp
        | ok sresp =>
          simp only []
          by_cases hc : sresp.SrvCode ≠ 0 ∨ sresp.HttpCode ≠ StatusOK
          · left
            rw [if_pos hc]
            refine ⟨?_, rfl, by simp, ?_⟩
            · rintro ⟨s, hs, h0, h200⟩
              cases hs
              rcases hc with hc | hc
              · exact hc h0
              · exact hc h200
            · intro s hs
              cases hs
              rfl
          · right
            rw [if_neg hc]
            refine ⟨⟨sresp, rfl, ?_, ?_⟩, rfl, rfl⟩
            · by_contra h0; exact hc (Or.inl h0)
            · by_contra h200; exact hc (Or.inr h200)

theorem writes_putTrace (env : Env) (schema doi doiLink : Str) (h : List Event)
    (rec : MapStringAny) :
    writes (putTrace env schema doi doiLink h rec) =
      [(patchRecord schema doi doiLink rec, putResult env schema doi doiLink h rec)] := rfl

/-- Every write of the loop carries the patched form of a candidate record. -/
theorem updateLoop_payload (env : Env) (schema doi doiLink : Str)
    (records : List (Option MapStringAny)) :
    ∀ (h : List Event) (w : MetaRecord × HttpResult),
      w ∈ writes (updateLoop env schema doi doiLink h records).trace →
      ∃ rec, some rec ∈ records ∧ w.1 = patchRecord schema doi doiLink rec := by
  induction records with
  | nil => intro h w hw; simp [updateLoop, writes] at hw
  | cons orec rest ih =>
    intro h w hw
    cases orec with
    | none => rw [updateLoop_nil_map] at hw; cases hw
    | some rec =>
      rcases updateLoop_cons env schema doi doiLink h rec rest with
        ⟨_, htrace, _, _⟩ | ⟨_, htrace, _⟩
      · rw [htrace, writes_putTrace] at hw
        simp only [List.mem_singleton] at hw
        exact ⟨rec, by simp, by rw [hw]⟩
      · rw [htrace, writes_append, writes_putTrace] at hw
        simp only [List.singleton_append, List.mem_cons] at hw
        rcases hw with hw | hw
        · exact ⟨rec, by simp, by rw [hw]⟩
        · obtain ⟨rec2, hmem, heq⟩ := ih _ w hw
          exact ⟨rec2, by simp [hmem], heq⟩

/-- On records, the loop always issues the write of the first one. -/
theorem updateLoop_first_write (env : Env) (schema doi doiLink : Str) (h : List Event)
    (rec : MapStringAny) (rest : List (Option MapStringAny)) :
    writes (updateLoop env schema doi doiLink h (some rec :: rest)).trace ≠ [] := by
  rcases updateLoop_cons env schema doi doiLink h rec rest with
    ⟨_, htrace, _, _⟩ | ⟨_, htrace, _⟩
  · rw [htrace, writes_putTrace]; simp
  · rw [htrace, writes_append, writes_putTrace]; simp

/-- On records, the loop returns a nil error exactly when every write it
issued succeeded. -/
theorem updateLoop_ok_iff (env : Env) (schema doi doiLink : Str)
    (records : List MapStringAny) :
    ∀ (h : List Event),
      (updateLoop env schema doi doiLink h (records.map some)).outcome = .returned none ↔
        ∀ w ∈ writes (updateLoop env schema doi doiLink h (records.map some)).trace,
          writeSucceeded env w.2 := by
  induction records with
  | nil => intro h; simp [updateLoop, writes]
  | cons rec rest ih =>
    intro h
    rw [List.map_cons]
    rcases updateLoop_cons env schema doi doiLink h rec (rest.map some) with
      ⟨hbad, htrace, hout, _⟩ | ⟨hgood, htrace, hout⟩
    · rw [htrace, writes_putTrace]
      constructor
      · intro hnil; exact absurd hnil hout
      · intro hall; exact absurd (hall _ (List.mem_singleton_self _)) hbad
    · rw [htrace, writes_append, writes_putTrace, hout, ih]
      simp only [List.singleton_append, List.mem_cons, forall_eq_or_imp]
      exact ⟨fun hall => ⟨hgood, hall⟩, fun hall => hall.2⟩

/-- On records, the loop writes them in the order fetched and stops at the
first write that does not succeed: with a nil error every record was written,
and otherwise the last write issued is the first one that did not succeed,
whose response, when there is one, is rendered as the error returned. -/
theorem updateLoop_stops_at_first_failure (env : Env) (schema doi doiLink : Str)
    (records : List MapStringAny) :
    ∀ (h : List Event),
      (writes (updateLoop env schema doi doiLink h (records.map some)).trace).map Prod.fst =
          (records.take
            (writes (updateLoop env schema doi doiLink h (records.map some)).trace).length).map
            (patchRecord schema doi doiLink) ∧
        ((updateLoop env schema doi doiLink h (records.map some)).outcome = .returned none →
          (writes (updateLoop env schema doi doiLink h (records.map some)).trace).length =
            records.length) ∧
        ((updateLoop env schema doi doiLink h (records.map some)).outcome ≠ .returned none →
          ∃ ws w,
            writes (updateLoop env schema doi doiLink h (records.map some)).trace =
              ws ++ [w] ∧
            (∀ x ∈ ws, writeSucceeded env x.2) ∧ ¬ writeSucceeded env w.2 ∧
            (∀ sresp, decodedWrite env w.2 = some sresp →
              (updateLoop env schema doi doiLink h (records.map some)).outcome =
                .returned (some (env.responseString sresp)))) := by
  induction records with
  | nil => intro h; simp [updateLoop, writes]
  | cons rec rest ih =>
    intro h
    rw [List.map_cons]
    rcases updateLoop_cons env schema doi doiLink h rec (rest.map some) with
      ⟨hbad, htrace, hout, hmsg⟩ | ⟨hgood, htrace, hout⟩
    · rw [htrace, writes_putTrace]
      refine ⟨by simp, fun hnil => absurd hnil hout,
        fun _ => ⟨[], _, rfl, by simp, hbad, hmsg⟩⟩
    · obtain ⟨h1, h2, h3⟩ := ih (h ++ putTrace env schema doi doiLink h rec)
      rw [htrace, writes_append, writes_putTrace, hout]
      refine ⟨?_, ?_, ?_⟩
      · simpa using h1
      · intro hnil
        simpa using h2 hnil
      · intro hne
        obtain ⟨ws, w, hws, hall, hlast, hmsg⟩ := h3 hne
        refine ⟨_ :: ws, w, by rw [hws]; rfl, ?_, hlast, hmsg⟩
        intro x hx
        simp only [List.mem_cons] at hx
        rcases hx with hx | hx
        · rw [hx]; exact hgood
        · exact hall x hx

/-! ## updateMetaDataDOI: the schema -/

theorem schemaLoop_eq_find (parts : List Str) :
    schemaLoop parts =
      match parts.find? (fun p => HasPrefix p "beamline=".toList) with
      | some part => ReplaceAll part "beamline=".toList []
      | none => [] := by
  induction parts with
  | nil => rfl
  | cons part rest ih =>
    cases hp : HasPrefix part "beamline=".toList with
    | true => rw [schemaLoop, if_pos hp, List.find?_cons, hp]
    | false =>
      rw [schemaLoop, if_neg (by rw [hp]; exact Bool.false_ne_true), List.find?_cons, hp]
      exact ih

theorem HasPrefix_split (part pre : Str) (hp : HasPrefix part pre = true) :
    part = pre ++ part.drop pre.length := by
  obtain ⟨t, ht⟩ := List.isPrefixOf_iff_prefix.mp hp
  rw [← ht]
  simp

/-! ## updateMetaDataDOI: the whole call -/

/-- With a schema that holds a comma the call returns at once. -/
theorem updateMetaDataDOI_of_comma (env : Env) (h : List Event) (did doi doiLink : Str)
    (hc : Contains (extractSchema did) ",".toList = true) :
    updateMetaDataDOI env h did doi doiLink =
      { outcome := .returned (some (multipleSchemasMsg did (extractSchema did))),
        trace := [] } := by
  unfold updateMetaDataDOI
  simp only [hc, if_true]

/-- The writes of a call are those of its loop over the decoded candidate
records, and the call ends as its loop does. -/
theorem updateMetaDataDOI_cases (env : Env) (h : List Event) (did doi doiLink : Str) :
    writes (updateMetaDataDOI env h did doi doiLink).trace = [] ∨
      ∃ resp data records,
        Contains (extractSchema did) ",".toList = false ∧
        (fetchResult env h did).resp = some resp ∧ (fetchResult env h did).err = none ∧
        resp.body = .ok data ∧ env.unmarshalRecords data = .ok records ∧
        (updateMetaDataDOI env h did doi doiLink).trace =
          fetchTrace env h did ++
            (updateLoop env (extractSchema did) doi doiLink (h ++ fetchTrace env h did)
              records).trace ∧
        (updateMetaDataDOI env h did doi doiLink).outcome =
          (updateLoop env (extractSchema did) doi doiLink (h ++ fetchTrace env h did)
            records).outcome := by
  unfold updateMetaDataDOI
  simp only [fetchTrace, fetchResult]
  by_cases hc : Contains (extractSchema did) ",".toList = true
  · left; rw [if_pos hc]; rfl
  · rw [if_neg hc]
    generalize env.Get (h ++ [Event.readGetToken]) (recordURL env did) = r
    obtain ⟨resp, err⟩ := r
    cases resp with
    | none => left; simp [writes]
    | some resp =>
      cases err with
      | some e => left; simp [writes]
      | none =>
        obtain ⟨body⟩ := resp
        cases body with
        | error e => left; simp [writes]
        | ok data =>
          simp only []
          cases hd : env.unmarshalRecords data with
          | error e => left; simp [writes]
          | ok records =>
            right
            refine ⟨⟨.ok data⟩, data, records, Bool.eq_false_iff.mpr hc, ?_⟩
            simp [hd]

/-- With a comma-free schema and a fetch decoded to `records`, the call emits
the events of the fetch and then runs its loop over `records`. -/
theorem updateMetaDataDOI_run (env : Env) (h : List Event) (did doi doiLink : Str)
    (resp : Response) (data : Str) (records : List (Option MapStringAny))
    (hschema : Contains (extractSchema did) ",".toList = false)
    (hresp : (fetchResult env h did).resp = some resp)
    (herr : (fetchResult env h did).err = none)
    (hbody : resp.body = .ok data)
    (hdecode : env.unmarshalRecords data = .ok records) :
    (updateMetaDataDOI env h did doi doiLink).trace =
        fetchTrace env h did ++
          (updateLoop env (extractSchema did) doi doiLink (h ++ fetchTrace env h did)
            records).trace ∧
      (updateMetaDataDOI env h did doi doiLink).outcome =
        (updateLoop env (extractSchema did) doi doiLink (h ++ fetchTrace env h did)
          records).outcome ∧
      writes (updateMetaDataDOI env h did doi doiLink).trace =
        writes (updateLoop env (extractSchema did) doi doiLink (h ++ fetchTrace env h did)
          records).trace := by
  have hrun : (updateMetaDataDOI env h did doi doiLink).trace =
        fetchTrace env h did ++
          (updateLoop env (extractSchema did) doi doiLink (h ++ fetchTrace env h did)
            records).trace ∧
      (updateMetaDataDOI env h did doi doiLink).outcome =
        (updateLoop env (extractSchema did) doi doiLink (h ++ fetchTrace env h did)
          records).outcome := by
    unfold updateMetaDataDOI
    rw [if_neg (by rw [hschema]; exact Bool.false_ne_true)]
    simp only [fetchResult] at hresp herr
    simp only [hresp, herr, hbody, hdecode, fetchTrace, fetchResult, and_self]
  refine ⟨hrun.1, hrun.2, ?_⟩
  rw [hrun.1, writes_append]
  simp [fetchTrace, writes]

/-- C2, as amended: when the first '/'-separated segment of the did that is
prefixed `beamline=` has a value that includes a comma, `updateMetaDataDOI`
returns the "multiple schemas" error and emits no event at all, hence no PUT. -/
theorem updateMetaDataDOI_comma_in_first_beamline (env : Env) (h : List Event)
    (did doi doiLink part : Str)
    (hfirst : (Split '/' did).find? (fun p => HasPrefix p "beamline=".toList) = some part)
    (hcomma : ',' ∈ part.drop "beamline=".toList.length) :
    (updateMetaDataDOI env h did doi doiLink).outcome =
        .returned (some (multipleSchemasMsg did (extractSchema did))) ∧
      (updateMetaDataDOI env h did doi doiLink).trace = [] := by
  have hschema : extractSchema did = ReplaceAll part "beamline=".toList [] := by
    unfold extractSchema
    rw [schemaLoop_eq_find, hfirst]
  have hmem : ',' ∈ extractSchema did := by
    rw [hschema]
    exact (mem_ReplaceAll "beamline=".toList ',' (by decide) (by decide) part).mpr
      (List.mem_of_mem_drop hcomma)
  have hc : Contains (extractSchema did) ",".toList = true :=
    (Contains_singleton ',' (extractSchema did)).mpr hmem
  rw [updateMetaDataDOI_of_comma env h did doi doiLink hc]
  exact ⟨rfl, rfl⟩

/-- Witness: the did "beamline=a,b/x=1" emits nothing. -/
theorem updateMetaDataDOI_comma_in_first_beamline_witness :
    (updateMetaDataDOI (sampleEnv [some sampleRecord] (answer []) okResponse) []
      "beamline=a,b/x=1".toList "D".toList "L".toList).trace = [] :=
  (updateMetaDataDOI_comma_in_first_beamline
    (sampleEnv [some sampleRecord] (answer []) okResponse)
    [] "beamline=a,b/x=1".toList "D".toList "L".toList "beamline=a,b".toList (by decide)
    (by decide)).2

/-- C2 fails as stated: the did "beamline=a/beamline=b,c" contains a segment
prefixed `beamline=` whose value includes a comma, yet `updateMetaDataDOI`
returns a nil error and issues a PUT, since only the first such segment is
examined. -/
theorem updateMetaDataDOI_comma_counterexample :
    (∃ part ∈ Split '/' "beamline=a/beamline=b,c".toList,
        HasPrefix part "beamline=".toList = true ∧
        ',' ∈ part.drop "beamline=".toList.length) ∧
      (updateMetaDataDOI (sampleEnv [some sampleRecord] (answer []) okResponse) []
        "beamline=a/beamline=b,c".toList "D".toList "L".toList).outcome = .returned none ∧
      (writes (updateMetaDataDOI (sampleEnv [some sampleRecord] (answer []) okResponse) []
        "beamline=a/beamline=b,c".toList "D".toList "L".toList).trace).length = 1 :=
  ⟨⟨"beamline=b,c".toList, by decide, by decide, by decide⟩, rfl, rfl⟩

/-- The schema on dids whose `beamline=` value holds no further `beamline=`:
the schema is the remainder of the first segment prefixed `beamline=`; it is
empty, and passes the comma check, when no segment has the prefix; and it is
the schema of every envelope written. -/
theorem extractSchema_of_plain_value (env : Env) (h : List Event) (did doi doiLink : Str) :
    (∀ part, (Split '/' did).find? (fun p => HasPrefix p "beamline=".toList) = some part →
        Contains (part.drop "beamline=".toList.length) "beamline=".toList = false →
        extractSchema did = part.drop "beamline=".toList.length) ∧
      ((Split '/' did).find? (fun p => HasPrefix p "beamline=".toList) = none →
        extractSchema did = [] ∧ Contains (extractSchema did) ",".toList = false) ∧
      (∀ w ∈ writes (updateMetaDataDOI env h did doi doiLink).trace,
        w.1.Schema = extractSchema did) ∧
      extractSchema "beamline=id1a3/experiment=42".toList = "id1a3".toList := by
  refine ⟨?_, ?_, ?_, by decide⟩
  · intro part hfirst hrest
    have hschema : extractSchema did = ReplaceAll part "beamline=".toList [] := by
      unfold extractSchema
      rw [schemaLoop_eq_find, hfirst]
    have hp : HasPrefix part "beamline=".toList = true := by
      have := List.find?_some hfirst
      simpa using this
    rw [hschema]
    conv_lhs => rw [HasPrefix_split part "beamline=".toList hp]
    rw [ReplaceAll_drop_old _ _ (by decide)]
    exact replaceScan_absent _ _ hrest
  · intro hnone
    have hschema : extractSchema did = [] := by
      unfold extractSchema
      rw [schemaLoop_eq_find, hnone]
    rw [hschema]
    exact ⟨rfl, by decide⟩
  · intro w hw
    rcases updateMetaDataDOI_cases env h did doi doiLink with hnil | ⟨_, _, records, _, _, _, _,
      _, htrace, _⟩
    · rw [hnil] at hw; cases hw
    · rw [htrace, writes_append] at hw
      have hw2 : w ∈ writes (updateLoop env (extractSchema did) doi doiLink
          (h ++ fetchTrace env h did) records).trace := by
        simpa [fetchTrace, writes] using hw
      obtain ⟨rec, _, heq⟩ := updateLoop_payload env _ doi doiLink records _ w hw2
      rw [heq]
      rfl

/-- C3 fails on the code: in the did "beamline=xbeamline=y" the first segment
prefixed `beamline=` has the remainder "xbeamline=y" after its prefix, but the
schema extracted, and written into the envelope of the PUT, is "xy": the call
`strings.Replace(part, "beamline=", "", -1)` strips every occurrence, not the
prefix alone. -/
theorem extractSchema_strips_every_occurrence :
    (Split '/' "beamline=xbeamline=y".toList).find?
        (fun p => HasPrefix p "beamline=".toList) = some "beamline=xbeamline=y".toList ∧
      ("beamline=xbeamline=y".toList).drop "beamline=".toList.length = "xbeamline=y".toList ∧
      extractSchema "beamline=xbeamline=y".toList = "xy".toList ∧
      extractSchema "beamline=xbeamline=y".toList ≠
        ("beamline=xbeamline=y".toList).drop "beamline=".toList.length ∧
      (writes (updateMetaDataDOI (sampleEnv [some sampleRecord] (answer []) okResponse) []
        "beamline=xbeamline=y".toList "D".toList "L".toList).trace).map
          (fun w => w.1.Schema) = ["xy".toList] := by
  refine ⟨by decide, by decide, by decide, by decide, by decide⟩

/-- The record of a patched envelope: no `_id`, the supplied `doi` and
`doi_url`, and every other field as in the record it was made from. -/
theorem patchRecord_fields (schema doi doiLink : Str) (rec : MapStringAny) :
    mapGet (patchRecord schema doi doiLink rec).Record "_id".toList = none ∧
      mapGet (patchRecord schema doi doiLink rec).Record "doi".toList =
        some (Any.string doi) ∧
      mapGet (patchRecord schema doi doiLink rec).Record "doi_url".toList =
        some (Any.string doiLink) ∧
      ∀ key, key ≠ "_id".toList → key ≠ "doi".toList → key ≠ "doi_url".toList →
        mapGet (patchRecord schema doi doiLink rec).Record key = mapGet rec key := by
  refine ⟨?_, ?_, ?_, ?_⟩
  · show mapGet (mapSet (mapSet (mapDelete rec "_id".toList) "doi".toList _)
      "doi_url".toList _) "_id".toList = none
    rw [mapGet_mapSet_other _ _ _ _ (by decide), mapGet_mapSet_other _ _ _ _ (by decide)]
    exact mapGet_mapDelete_self rec _
  · show mapGet (mapSet (mapSet (mapDelete rec "_id".toList) "doi".toList _)
      "doi_url".toList _) "doi".toList = _
    rw [mapGet_mapSet_other _ _ _ _ (by decide)]
    exact mapGet_mapSet_self _ _ _
  · exact mapGet_mapSet_self _ _ _
  · intro key h1 h2 h3
    show mapGet (mapSet (mapSet (mapDelete rec "_id".toList) "doi".toList _)
      "doi_url".toList _) key = _
    rw [mapGet_mapSet_other _ _ _ _ h3, mapGet_mapSet_other _ _ _ _ h2]
    exact mapGet_mapDelete_other rec _ key h1

/-- C4: the record in every PUT payload of `updateMetaDataDOI` has no `_id`
field, has `doi` equal to the supplied doi and `doi_url` equal to the supplied
doiLink, and agrees on every other field with one of the records decoded from
the candidate fetch. -/
theorem updateMetaDataDOI_payload (env : Env) (h : List Event) (did doi doiLink : Str)
    (w : MetaRecord × HttpResult)
    (hw : w ∈ writes (updateMetaDataDOI env h did doi doiLink).trace) :
    mapGet w.1.Record "_id".toList = none ∧
      mapGet w.1.Record "doi".toList = some (Any.string doi) ∧
      mapGet w.1.Record "doi_url".toList = some (Any.string doiLink) ∧
      ∃ resp data records rec,
        (fetchResult env h did).resp = some resp ∧ (fetchResult env h did).err = none ∧
        resp.body = .ok data ∧ env.unmarshalRecords data = .ok records ∧
        some rec ∈ records ∧
        ∀ key, key ≠ "_id".toList → key ≠ "doi".toList → key ≠ "doi_url".toList →
          mapGet w.1.Record key = mapGet rec key := by
  rcases updateMetaDataDOI_cases env h did doi doiLink with hnil | ⟨resp, data, records, _,
    hresp, herr, hbody, hdecode, htrace, _⟩
  · rw [hnil] at hw; cases hw
  · rw [htrace, writes_append] at hw
    have hw2 : w ∈ writes (updateLoop env (extractSchema did) doi doiLink
        (h ++ fetchTrace env h did) records).trace := by
      simpa [fetchTrace, writes] using hw
    obtain ⟨rec, hmem, heq⟩ := updateLoop_payload env _ doi doiLink records _ w hw2
    obtain ⟨h1, h2, h3, h4⟩ := patchRecord_fields (extractSchema did) doi doiLink rec
    rw [heq]
    exact ⟨h1, h2, h3, resp, data, records, rec, hresp, herr, hbody, hdecode, hmem, h4⟩

/-- Witness: the scenario of the spec, where the written record keeps `sample`
and loses `_id`. -/
theorem updateMetaDataDOI_payload_witness :
    mapGet (patchRecord "id1a3".toList "10.5072/abc123".toList
        "https://zenodo.org/record/abc123".toList sampleRecord).Record "_id".toList = none ∧
      mapGet (patchRecord "id1a3".toList "10.5072/abc123".toList
        "https://zenodo.org/record/abc123".toList sampleRecord).Record "doi".toList =
        some (Any.string "10.5072/abc123".toList) :=
  have hp := updateMetaDataDOI_payload (sampleEnv [some sampleRecord] (answer []) okResponse)
    [] "beamline=id1a3/experiment=42".toList "10.5072/abc123".toList
    "https://zenodo.org/record/abc123".toList
    (patchRecord "id1a3".toList "10.5072/abc123".toList
      "https://zenodo.org/record/abc123".toList sampleRecord, answer [])
    (List.mem_singleton_self _)
  ⟨hp.1, hp.2.1⟩

/-- C7, as amended: for a did with a single schema, a candidate fetch decoded
to a list of records none of which is null, and every write of the call
answered by a decodable response, `updateMetaDataDOI` returns, and returns a
nil error if and only if every response it received has `SrvCode = 0` and
`HttpCode = 200`.  The records are written in the order fetched, the first
one always; with a nil error every record was written; a response that fails
the check makes the call return the rendering of that response as its error;
and with no candidate record the call returns a nil error and writes nothing. -/
theorem updateMetaDataDOI_ok_iff (env : Env) (h : List Event) (did doi doiLink : Str)
    (resp : Response) (data : Str) (records : List MapStringAny)
    (hschema : Contains (extractSchema did) ",".toList = false)
    (hresp : (fetchResult env h did).resp = some resp)
    (herr : (fetchResult env h did).err = none)
    (hbody : resp.body = .ok data)
    (hdecode : env.unmarshalRecords data = .ok (records.map some))
    (hputs : ∀ w ∈ writes (updateMetaDataDOI env h did doi doiLink).trace,
      ∃ sresp, decodedWrite env w.2 = some sresp) :
    (∃ e, (updateMetaDataDOI env h did doi doiLink).outcome = .returned e) ∧
      ((updateMetaDataDOI env h did doi doiLink).outcome = .returned none ↔
        ∀ w ∈ writes (updateMetaDataDOI env h did doi doiLink).trace,
          ∀ sresp, decodedWrite env w.2 = some sresp → codesOK sresp) ∧
      ((writes (updateMetaDataDOI env h did doi doiLink).trace).map Prod.fst =
        (records.take (writes (updateMetaDataDOI env h did doi doiLink).trace).length).map
          (patchRecord (extractSchema did) doi doiLink)) ∧
      (records ≠ [] → writes (updateMetaDataDOI env h did doi doiLink).trace ≠ []) ∧
      ((updateMetaDataDOI env h did doi doiLink).outcome = .returned none →
        (writes (updateMetaDataDOI env h did doi doiLink).trace).map Prod.fst =
          records.map (patchRecord (extractSchema did) doi doiLink)) ∧
      (∀ w ∈ writes (updateMetaDataDOI env h did doi doiLink).trace,
        ∀ sresp, decodedWrite env w.2 = some sresp → ¬ codesOK sresp →
          (updateMetaDataDOI env h did doi doiLink).outcome =
            .returned (some (env.responseString sresp))) ∧
      (records = [] →
        (updateMetaDataDOI env h did doi doiLink).outcome = .returned none ∧
        writes (updateMetaDataDOI env h did doi doiLink).trace = []) := by
  obtain ⟨_, hout, hwrites⟩ := updateMetaDataDOI_run env h did doi doiLink resp data
    (records.map some) hschema hresp herr hbody hdecode
  obtain ⟨hpre, hall, hstop⟩ := updateLoop_stops_at_first_failure env (extractSchema did) doi
    doiLink records (h ++ fetchTrace env h did)
  have hiff := updateLoop_ok_iff env (extractSchema did) doi doiLink records
    (h ++ fetchTrace env h did)
  rw [← hwrites] at hpre hall hstop hiff
  rw [← hout] at hall hstop hiff
  -- a response that fails the check is the last one, and is the error returned
  have hbad : ∀ w ∈ writes (updateMetaDataDOI env h did doi doiLink).trace,
      ∀ sresp, decodedWrite env w.2 = some sresp → ¬ codesOK sresp →
        (updateMetaDataDOI env h did doi doiLink).outcome =
          .returned (some (env.responseString sresp)) := by
    intro w hw sresp hs hnot
    have hne : (updateMetaDataDOI env h did doi doiLink).outcome ≠ .returned none := by
      intro hnil
      obtain ⟨s, hs2, hok⟩ := hiff.mp hnil w hw
      rw [hs] at hs2
      cases hs2
      exact hnot hok
    obtain ⟨ws, w0, hws, hgood, _, hmsg⟩ := hstop hne
    rw [hws, List.mem_append] at hw
    rcases hw with hw | hw
    · obtain ⟨s, hs2, hok⟩ := hgood w hw
      rw [hs] at hs2
      cases hs2
      exact absurd hok hnot
    · rw [List.mem_singleton] at hw
      subst hw
      exact hmsg sresp hs
  refine ⟨?_, ?_, hpre, ?_, ?_, hbad, ?_⟩
  · by_cases hnil : (updateMetaDataDOI env h did doi doiLink).outcome = .returned none
    · exact ⟨none, hnil⟩
    · obtain ⟨ws, w0, hws, _, _, hmsg⟩ := hstop hnil
      obtain ⟨sresp, hs⟩ := hputs w0 (by rw [hws]; simp)
      exact ⟨_, hmsg sresp hs⟩
  · rw [hiff]
    constructor
    · intro hsucc w hw sresp hs
      obtain ⟨s, hs2, hok⟩ := hsucc w hw
      rw [hs] at hs2
      cases hs2
      exact hok
    · intro hcodes w hw
      obtain ⟨sresp, hs⟩ := hputs w hw
      exact ⟨sresp, hs, hcodes w hw sresp hs⟩
  · intro hne
    cases records with
    | nil => exact absurd rfl hne
    | cons rec rest =>
      rw [hwrites, List.map_cons]
      exact updateLoop_first_write env _ doi doiLink _ rec (rest.map some)
  · intro hnil
    have hlen := hall hnil
    rw [hpre, hlen, List.take_length]
  · intro hempty
    subst hempty
    rw [hout, hwrites]
    exact ⟨rfl, rfl⟩

/-- Witness: one candidate record whose write is answered with success: the
call returns a nil error and has written the patched record. -/
theorem updateMetaDataDOI_ok_iff_witness :
    (updateMetaDataDOI (sampleEnv [some sampleRecord] (answer []) okResponse) []
        "beamline=id1a3/experiment=42".toList "D".toList "L".toList).outcome =
        .returned none ∧
      (writes (updateMetaDataDOI (sampleEnv [some sampleRecord] (answer []) okResponse) []
        "beamline=id1a3/experiment=42".toList "D".toList "L".toList).trace).map Prod.fst =
        [sampleRecord].map (patchRecord
          (extractSchema "beamline=id1a3/experiment=42".toList) "D".toList "L".toList) :=
  have hw := updateMetaDataDOI_ok_iff (sampleEnv [some sampleRecord] (answer []) okResponse) []
    "beamline=id1a3/experiment=42".toList "D".toList "L".toList { body := .ok [] } []
    [sampleRecord] (by decide) rfl rfl rfl rfl
    (fun w hw => by
      rw [List.mem_singleton.mp hw]
      exact ⟨okResponse, rfl⟩)
  have hnil := hw.2.1.mpr (fun w hw sresp hs => by
    rw [List.mem_singleton.mp hw] at hs
    cases hs
    exact ⟨rfl, rfl⟩)
  ⟨hnil, hw.2.2.2.2.1 hnil⟩

/-- C7 fails as stated: with a single schema, a successful fetch and a
candidate list whose only element is null, `updateMetaDataDOI` issues no write
and so receives no response that fails the check, yet it does not return a nil
error: it panics at `rec["doi"] = doi` on the nil map. -/
theorem updateMetaDataDOI_null_candidate_counterexample :
    Contains (extractSchema "beamline=id1a3/experiment=42".toList) ",".toList = false ∧
      writes (updateMetaDataDOI (sampleEnv [none] (answer []) okResponse) []
        "beamline=id1a3/experiment=42".toList "D".toList "L".toList).trace = [] ∧
      (updateMetaDataDOI (sampleEnv [none] (answer []) okResponse) []
        "beamline=id1a3/experiment=42".toList "D".toList "L".toList).outcome = .panicked ∧
      (updateMetaDataDOI (sampleEnv [none] (answer []) okResponse) []
        "beamline=id1a3/experiment=42".toList "D".toList "L".toList).outcome ≠
        .returned none := by
  refine ⟨by decide, rfl, rfl, ?_⟩
  intro hnil
  cases hnil

/-- C9 fails on the code: with one candidate record and a write whose
transport fails (nil response, non-nil error), `updateMetaDataDOI` does not
return that error; it panics at `defer resp.Body.Close()`, which precedes the
check of the error. -/
theorem updateMetaDataDOI_transport_failure_panics :
    (updateMetaDataDOI (sampleEnv [some sampleRecord] refused okResponse) []
        "beamline=id1a3/experiment=42".toList "D".toList "L".toList).outcome = .panicked ∧
      (writes (updateMetaDataDOI (sampleEnv [some sampleRecord] refused okResponse) []
        "beamline=id1a3/experiment=42".toList "D".toList "L".toList).trace).map Prod.snd =
        [refused] :=
  ⟨rfl, rfl⟩

/-- C10 fails on the code: for a decoded response with HTTP code 500,
`numberOfRecords` returns the count 0 with a nil error. -/
theorem numberOfRecords_swallows_failure :
    failedResponse.HttpCode = 500 ∧
      (numberOfRecords (sampleEnv [] (answer []) failedResponse) []
        (searchRequest "d".toList)).outcome = .returned (0, none) :=
  ⟨rfl, rfl⟩

end Frontend
